import Mathlib

/-!
Verification of the workflow transition engine of the raycast-jira-status-flow
extension (src/utils.ts, src/jira-advance-to-next-status.tsx,
src/jira-workflow-status-board.tsx) against its specification.

The external jira CLI is modelled as an oracle mapping the transition label
passed to the command to its observable outcome (exit status together with
stdout for success, error message for failure).  All pure logic (status
normalization, workflow table lookups, rejection-message parsing, the
resolver, the fallback loops, the run-to-completion chain, and the dev-date
auto-filler) is translated directly from the TypeScript source.
-/

namespace JiraSpec

/-! ## JavaScript string primitives

The source manipulates statuses and CLI messages with `trim`, `toUpperCase`,
`endsWith`, regular expressions and `split`.  These are modelled over
`List Char` (ASCII case mapping, the whitespace class used by `trim`/`\s`
restricted to space, tab, newline and carriage return). -/

/-- ASCII uppercasing of one character (model of JS `toUpperCase`). -/
def upChar (c : Char) : Char :=
  if 97 ≤ c.toNat ∧ c.toNat ≤ 122 then Char.ofNat (c.toNat - 32) else c

/-- Whitespace characters stripped by `trim` and matched by `\s`. -/
def isWsChar (c : Char) : Bool :=
  c.toNat == 32 || c.toNat == 9 || c.toNat == 10 || c.toNat == 13

/-- Word characters of the JS regex class `\w` (for `\b` boundaries). -/
def isWordChar (c : Char) : Bool :=
  (48 ≤ c.toNat && c.toNat ≤ 57) || (65 ≤ c.toNat && c.toNat ≤ 90) ||
    (97 ≤ c.toNat && c.toNat ≤ 122) || c.toNat == 95

/-- Line terminators, which the JS regex `.` does not match. -/
def isLineTerm (c : Char) : Bool :=
  c.toNat == 10 || c.toNat == 13

/-- JS `String.prototype.trim` on a character list. -/
def trimChars (l : List Char) : List Char :=
  ((l.dropWhile isWsChar).reverse.dropWhile isWsChar).reverse

/-- JS `s.trim()`. -/
def jsTrim (s : String) : String :=
  (trimChars s.toList).asString

/-- JS `s.toUpperCase()`. -/
def jsToUpper (s : String) : String :=
  (s.toList.map upChar).asString

/-- JS `a.endsWith(b)` (on the character sequences). -/
def jsEndsWith (s suffixStr : String) : Bool :=
  suffixStr.toList.isSuffixOf s.toList

/-- Contiguous-substring test over character lists. -/
def containsSub (pat : List Char) : List Char → Bool
  | [] => pat.isPrefixOf []
  | c :: rest => pat.isPrefixOf (c :: rest) || containsSub pat rest

/-- Case-insensitive containment test: does `s` contain the (already
uppercased) pattern `pat`?  Models `pat_regex_with_i_flag.test(s)`. -/
def containsUp (s : String) (pat : List Char) : Bool :=
  containsSub pat (s.toList.map upChar)

/-- JS `s.slice(0, n)`. -/
def jsSlice (s : String) (n : Nat) : String :=
  (s.toList.take n).asString

/-! ## Workflow table (src/utils.ts lines 10-88) -/

/-- One workflow stage (interface WorkflowStep of src/utils.ts). -/
structure WorkflowStep where
  status : String
  emoji : String
  color : String
  description : String
deriving DecidableEq

instance : Inhabited WorkflowStep :=
  ⟨⟨"", "", "", ""⟩⟩

/-- The fixed ordered workflow (const WORKFLOW of src/utils.ts). -/
def WORKFLOW : List WorkflowStep :=
  [⟨"Waiting", "📋", "#8B9EB0", "Waiting to be started"⟩,
   ⟨"Doing", "🔨", "#F4A261", "Actively in development"⟩,
   ⟨"Integration", "🔗", "#E9C46A", "Integrating with other services"⟩,
   ⟨"1ST REVIEW", "👀", "#2A9D8F", "First code review"⟩,
   ⟨"Testing", "🧪", "#4361EE", "QA / manual testing"⟩,
   ⟨"2ND REVIEW", "🔍", "#7209B7", "Second code review"⟩,
   ⟨"UAT", "✅", "#3A86FF", "User acceptance testing"⟩,
   ⟨"Staging", "🚀", "#FF6B6B", "Deployed to staging"⟩,
   ⟨"Regression", "🔄", "#FB8500", "Regression testing"⟩,
   ⟨"Delivering", "📦", "#6A4C93", "Delivering to production"⟩,
   ⟨"Done", "🎉", "#2DC653", "Completed"⟩]

/-- const STATUS_ALIASES of src/utils.ts: alternate spelling to canonical. -/
def STATUS_ALIASES : List (String × String) :=
  [("TO DO", "WAITING")]

/-- Insert one alias into the inverted fallback table (the loop body of
src/utils.ts lines 50-53). -/
def addFallback (acc : List (String × List String)) (aliasName canonical : String) :
    List (String × List String) :=
  match acc.lookup canonical with
  | some l => acc.map (fun p => if p.1 == canonical then (p.1, l ++ [aliasName]) else p)
  | none => acc ++ [(canonical, [aliasName])]

/-- const STATUS_FALLBACKS of src/utils.ts: canonical name to the alias
labels retried as fallback transitions. -/
def STATUS_FALLBACKS : List (String × List String) :=
  STATUS_ALIASES.foldl (fun acc kv => addFallback acc kv.1 kv.2) []

/-- function normalizeStatus of src/utils.ts: trim, uppercase, then apply
the status-alias mapping. -/
def normalizeStatus (status : String) : String :=
  let upper := jsToUpper (jsTrim status)
  match STATUS_ALIASES.lookup upper with
  | some canonical => canonical
  | none => upper

/-- function getWorkflowIndex of src/utils.ts (findIndex, -1 when absent). -/
def getWorkflowIndex (status : String) : Int :=
  match WORKFLOW.findIdx? (fun s => normalizeStatus s.status == normalizeStatus status) with
  | some i => (i : Int)
  | none => -1

/-- function getRemainingSteps of src/utils.ts: the stages strictly after
the current one, empty when the status is unrecognized. -/
def getRemainingSteps (status : String) : List WorkflowStep :=
  let idx := getWorkflowIndex status
  if idx == -1 then [] else WORKFLOW.drop (idx + 1).toNat

/-! ## CLI boundary model (src/utils.ts lines 126-142, 298-303)

One `jira issue move KEY "label"` invocation is observed as either a
successful exit with the captured stdout or a failed exit with the error
message of the raised exception.  A `Cli` oracle maps the transition label
to that outcome (the ticket key is fixed for the duration of one run and
does not influence the modelled logic). -/

/-- Observable outcome of one jira CLI invocation. -/
inductive CliResult where
  | exitOk (stdout : String)
  | exitErr (message : String)
deriving DecidableEq

/-- The external tracker, as seen through `jira issue move` calls. -/
def Cli : Type :=
  String → CliResult

/-- Consume the `[0-9;]*m` tail of an ANSI escape sequence, returning the
remainder of the input on success. -/
def ansiTail : List Char → Option (List Char)
  | [] => none
  | c :: rest =>
    if c == 'm' then some rest
    else if c.isDigit || c == ';' then ansiTail rest
    else none

/-- Fuelled scanner for `replaceAll(/\u001b\[[0-9;]*m/g, "")` (the fuel is
an upper bound on the input length, so it never runs out). -/
def stripAnsiFuel : Nat → List Char → List Char
  | 0, l => l
  | _ + 1, [] => []
  | fuel + 1, c :: rest =>
    if c == '\x1b' then
      match rest with
      | b :: rest2 =>
        if b == '[' then
          match ansiTail rest2 with
          | some rest3 => stripAnsiFuel fuel rest3
          | none => c :: stripAnsiFuel fuel rest
        else c :: stripAnsiFuel fuel rest
      | [] => [c]
    else c :: stripAnsiFuel fuel rest

/-- Strip ANSI escape codes from an error message (src/utils.ts line 139). -/
def stripAnsi (s : String) : String :=
  (stripAnsiFuel s.toList.length s.toList).asString

/-- function runJira of src/utils.ts restricted to its observable result:
stdout on success, the wrapped and ANSI-stripped message on failure. -/
def runJira (cli : Cli) (label : String) : Except String String :=
  match cli label with
  | .exitOk out => .ok out
  | .exitErr msg => .error ("jira CLI (exit 1): " ++ stripAnsi msg)

/-- Does the stdout match `/error|failed|invalid/i`? -/
def hasErrorWord (out : String) : Bool :=
  containsUp out "ERROR".toList || containsUp out "FAILED".toList ||
    containsUp out "INVALID".toList

/-- Does the stdout contain the success check mark (`/✓/`)? -/
def hasCheckMark (out : String) : Bool :=
  out.toList.contains '✓'

/-- function tryMove of src/utils.ts: run the CLI move; even on a
successful exit, treat stdout that matches the error words without a check
mark as a failure. -/
def tryMove (cli : Cli) (transitionName : String) : Except String Unit :=
  match runJira cli transitionName with
  | .error e => .error e
  | .ok stdout =>
    if hasErrorWord stdout && !hasCheckMark stdout then
      .error ("Transition may have failed.\n\nCLI output:\n" ++ jsSlice stdout 400)
    else .ok ()

/-! ## Rejection-message parsing (src/utils.ts lines 274-296, 511-518) -/

/-- Strip one leading and one trailing apostrophe
(`replaceAll(/(?:^')|(?:'$)/g, "")`). -/
def stripQuote (l : List Char) : List Char :=
  let q := Char.ofNat 39
  let l1 := match l with
    | c :: rest => if c == q then rest else c :: rest
    | [] => []
  match l1.reverse with
  | c :: rest => if c == q then rest.reverse else l1
  | [] => l1

/-- Attempt the pattern `Available states for issue [^:]+:\s*(.+)` at the
start of `l`, returning the capture group. -/
def availHere (l : List Char) : Option (List Char) :=
  let lit := "AVAILABLE STATES FOR ISSUE ".toList
  if (l.take lit.length).map upChar == lit then
    let afterLit := l.drop lit.length
    let seg := afterLit.takeWhile (fun c => c != ':')
    if seg.isEmpty then none
    else
      match afterLit.drop seg.length with
      | _colon :: afterColon =>
        let cap := (afterColon.dropWhile isWsChar).takeWhile (fun c => !isLineTerm c)
        if cap.isEmpty then none else some cap
      | [] => none
  else none

/-- Leftmost match of the availability pattern (`re.exec` semantics). -/
def availScan : List Char → Option (List Char)
  | [] => none
  | c :: rest =>
    match availHere (c :: rest) with
    | some cap => some cap
    | none => availScan rest

/-- function parseAvailableTransitions of src/utils.ts: extract the legal
transition labels enumerated by the tracker's rejection message. -/
def parseAvailableTransitions (errorMsg : String) : List String :=
  match availScan errorMsg.toList with
  | none => []
  | some cap =>
    ((cap.splitOn ',').map (fun piece => (stripQuote (trimChars piece)).asString)).filter
      (fun s => s != "")

/-- function findMatchingTransition of src/utils.ts: resolve the actual
transition label for a target status from the labels the tracker offers
(exact match, then "BACK TO target", then a strict suffix match). -/
def findMatchingTransition (targetStatus : String) (available : List String) :
    Option String :=
  let target := jsToUpper targetStatus
  match available.find? (fun t => jsToUpper t == target) with
  | some exact => some exact
  | none =>
    match available.find? (fun t => jsToUpper t == "BACK TO " ++ target) with
    | some backTo => some backTo
    | none =>
      available.find? (fun t => jsEndsWith (jsToUpper t) target && jsToUpper t != target)

/-- Resolver rule as worded by the specification (§4.2), for comparison
with the implementation: first match wins, case-insensitively — 1. exact
label equal to the target name; 2. a label of the form "BACK TO " followed
by the target; 3. any label that ends with the target name as a suffix and
is not identical to it; 4. otherwise none. -/
def resolverSpecRule (target : String) (available : List String) : Option String :=
  match available.find? (fun l => jsToUpper l == jsToUpper target) with
  | some l => some l
  | none =>
    match available.find? (fun l => jsToUpper l == jsToUpper ("BACK TO " ++ target)) with
    | some l => some l
    | none =>
      match available.find? (fun l =>
          jsEndsWith (jsToUpper l) (jsToUpper target) && !(jsToUpper l == jsToUpper target)) with
      | some l => some l
      | none => none

/-- Attempt the pattern `(?:please )?fill in (.+)` at the start of `l`,
returning the capture group. -/
def fillInHere (l : List Char) : Option (List Char) :=
  let lit := "FILL IN ".toList
  if (l.take lit.length).map upChar == lit then
    let cap := (l.drop lit.length).takeWhile (fun c => !isLineTerm c)
    if cap.isEmpty then none else some cap
  else none

/-- Leftmost match of the missing-fields pattern.  The optional leading
`please ` of the regex never changes the capture, so scanning for the
`fill in ` literal is equivalent. -/
def fillInScan : List Char → Option (List Char)
  | [] => none
  | c :: rest =>
    match fillInHere (c :: rest) with
    | some cap => some cap
    | none => fillInScan rest

/-- Does the list start with `and` (case-insensitively) followed by a
non-word character or the end of input?  (`\band\b` with the left boundary
checked by the caller.) -/
def isAndAt (c : Char) (rest : List Char) : Bool :=
  match rest with
  | n :: d :: rest2 =>
    upChar c == 'A' && upChar n == 'N' && upChar d == 'D' &&
      (match rest2 with
       | [] => true
       | e :: _ => !isWordChar e)
  | _ => false

/-- Prepend a character to the first piece of a split result. -/
def consPiece (c : Char) : List (List Char) → List (List Char)
  | [] => [[c]]
  | h :: t => (c :: h) :: t

/-- Split on the delimiters of `/[,;]|\band\b/i` (`prevW` records whether
the previous character was a word character, for the left `\b`). -/
def splitFieldList (prevW : Bool) : List Char → List (List Char)
  | [] => [[]]
  | c :: rest =>
    if c == ',' || c == ';' then [] :: splitFieldList false rest
    else
      match rest with
      | n :: d :: rest2 =>
        if !prevW && isAndAt c (n :: d :: rest2) then [] :: splitFieldList false rest2
        else consPiece c (splitFieldList (isWordChar c) (n :: d :: rest2))
      | shortRest => consPiece c (splitFieldList (isWordChar c) shortRest)

/-- Strip a trailing run of dots (`replace(/\.+$/, "")`). -/
def stripTrailingDots (l : List Char) : List Char :=
  (l.reverse.dropWhile (fun c => c == '.')).reverse

/-- function parseMissingFieldsFromError of src/utils.ts: extract the field
names of a "please fill in X, Y and Z" rejection, empty when the message
does not match. -/
def parseMissingFieldsFromError (errorMsg : String) : List String :=
  match fillInScan errorMsg.toList with
  | none => []
  | some cap =>
    ((splitFieldList false cap).map
        (fun piece => (stripTrailingDots (trimChars piece)).asString)).filter
      (fun s => s != "")

/-! ## Single-transition engine (src/utils.ts lines 305-336)

`tryFallbacks` and `transitionIssue` are instrumented with the list of
transition labels actually passed to `tryMove`, in order, so that the
retry/fallback behaviour is part of the observable result. -/

/-- function tryFallbacks of src/utils.ts: try each alias label in order
until one succeeds; also returns the labels attempted. -/
def tryFallbacks (cli : Cli) : List String → Bool × List String
  | [] => (false, [])
  | fb :: rest =>
    match tryMove cli fb with
    | .ok _ => (true, [fb])
    | .error _ =>
      let r := tryFallbacks cli rest
      (r.1, fb :: r.2)

/-- function transitionIssue of src/utils.ts: attempt the canonical label;
on rejection consult the resolver over the rejection text (one retry), else
the alias fallback table; surface the original rejection when everything
fails.  The second component lists the labels attempted, in order. -/
def transitionIssue (cli : Cli) (targetStatus : String) :
    Except String Unit × List String :=
  let fallbacks := (STATUS_FALLBACKS.lookup (jsToUpper targetStatus)).getD []
  match tryMove cli targetStatus with
  | .ok _ => (.ok (), [targetStatus])
  | .error primaryError =>
    let available := parseAvailableTransitions primaryError
    match findMatchingTransition targetStatus available with
    | some m => (tryMove cli m, [targetStatus, m])
    | none =>
      let fb := tryFallbacks cli fallbacks
      if fb.1 then (.ok (), targetStatus :: fb.2)
      else (.error primaryError, targetStatus :: fb.2)

/-! ## Multi-step run to completion
(function runTransitionLoop of src/jira-advance-to-next-status.tsx)

The abort flag is only set when the command view unmounts, so it is `false`
throughout a modelled run.  Toast and progress rendering are presentation
and carry no decision logic; the `TransitionState` the component stores is
captured by `RunOutcome`, and the labels passed to `tryMove` per chain
stage are recorded in `attempts`. -/

/-- Terminal state of one run (the component's `TransitionState`, with the
issue's optimistically recorded status).  A missing-field rejection
suspends the run, offering resumption from `resumeStatus`. -/
inductive RunOutcome where
  | done
  | error (failedAt : String) (completedSteps : List String) (errorMessage : String)
      (issueStatus : String)
  | suspended (resumeStatus : String) (missingFields : List String) (issueStatus : String)
deriving DecidableEq

/-- Result of a run: its outcome plus, per attempted chain stage, the
target status and the labels `transitionIssue` passed to `tryMove`. -/
structure RunResult where
  outcome : RunOutcome
  attempts : List (String × List String)
deriving DecidableEq

/-- The `for (const step of remaining)` loop of runTransitionLoop:
`current` is the last successfully reached status and `completed` the
emoji-decorated names of the completed stages. -/
def runLoop (cli : Cli) (current : String) (completed : List String) :
    List WorkflowStep → RunResult
  | [] => ⟨.done, []⟩
  | step :: rest =>
    match transitionIssue cli step.status with
    | (.ok _, labels) =>
      let r := runLoop cli step.status (completed ++ [step.emoji ++ " " ++ step.status]) rest
      ⟨r.outcome, (step.status, labels) :: r.attempts⟩
    | (.error msg, labels) =>
      if (parseMissingFieldsFromError msg).isEmpty then
        ⟨.error step.status completed msg current, [(step.status, labels)]⟩
      else
        ⟨.suspended current (parseMissingFieldsFromError msg) current, [(step.status, labels)]⟩

/-- function runTransitionLoop of src/jira-advance-to-next-status.tsx:
drive the issue through every remaining stage in order; done immediately
when nothing remains. -/
def runTransitionLoop (cli : Cli) (status : String) : RunResult :=
  match getRemainingSteps status with
  | [] => ⟨.done, []⟩
  | step :: rest => runLoop cli status [] (step :: rest)

/-! ## Dev-date auto-filler (src/utils.ts lines 340-345, 462-505)

The four managed fields; the current raw field values (as read by
getIssueRawFields) are an oracle from field id to the stored string or
`none`, and the single batched write (setIssueCustomFields) is an oracle
from the written name-value pairs to its outcome. -/

/-- const DEV_DATE_FIELDS of src/utils.ts. -/
structure DevDateField where
  name : String
  id : String
deriving DecidableEq

/-- Dev Start Date. -/
def devStartDate : DevDateField :=
  ⟨"Dev Start Date", "customfield_11516"⟩

/-- Dev Due Date. -/
def devDueDate : DevDateField :=
  ⟨"Dev Due Date", "customfield_10304"⟩

/-- Planned Dev Start Date. -/
def plannedStart : DevDateField :=
  ⟨"Planned Dev Start Date", "customfield_11520"⟩

/-- Planned Dev Due Date. -/
def plannedDue : DevDateField :=
  ⟨"Planned Dev Due Date", "customfield_11509"⟩

/-- JS truthiness of a `string | null` field value (`null` and the empty
string are falsy). -/
def truthyOpt : Option String → Bool
  | none => false
  | some s => s != ""

/-- One field pair of autoFillDevDates (the two symmetric `if` blocks):
additions to `(toFill, filled, stillMissing)` for a target field given its
current value and the value of its planned counterpart. -/
def fillFromPlanned (target : DevDateField) (cur planned : Option String) :
    List (String × String) × List String × List String :=
  if truthyOpt cur then ([], [], [])
  else if truthyOpt planned then
    ([(target.name, planned.getD "")], [target.name], [])
  else ([], [], [target.name])

/-- The pure computation of autoFillDevDates over the raw field values:
the batched update to write, the filled names and the still-missing names,
in source order (start date first, then due date). -/
def autoFillCompute (raw : String → Option String) :
    List (String × String) × List String × List String :=
  let s := fillFromPlanned devStartDate (raw devStartDate.id) (raw plannedStart.id)
  let d := fillFromPlanned devDueDate (raw devDueDate.id) (raw plannedDue.id)
  (s.1 ++ d.1, s.2.1 ++ d.2.1, s.2.2 ++ d.2.2)

deriving instance DecidableEq for Except

/-- Result of autoFillDevDates: the returned value (or the propagated
write error) and the write calls issued. -/
structure AutoFillResult where
  result : Except String (List String × List String)
  writes : List (List (String × String))
deriving DecidableEq

/-- function autoFillDevDates of src/utils.ts: compute the fillable fields,
issue one batched write exactly when at least one field was computed, and
propagate a write failure to the caller. -/
def autoFillDevDates (raw : String → Option String)
    (write : List (String × String) → Except String Unit) : AutoFillResult :=
  let c := autoFillCompute raw
  if c.1.isEmpty then ⟨.ok (c.2.1, c.2.2), []⟩
  else
    match write c.1 with
    | .ok _ => ⟨.ok (c.2.1, c.2.2), [c.1]⟩
    | .error e => ⟨.error e, [c.1]⟩

/-! ## Concrete oracles used to instantiate the theorems -/

/-- A tracker that rejects the move to Delivering while enumerating a
drifted transition label, and accepts everything else. -/
def cliResolverRetry : Cli := fun label =>
  if label == "Delivering" then
    .exitErr "Available states for issue PROJ-1: 'Move to Delivering', 'Done'"
  else .exitOk "✓ moved"

/-- A tracker that rejects the move to Delivering with an unresolvable
message and accepts everything else. -/
def cliHardFail : Cli := fun label =>
  if label == "Delivering" then .exitErr "permission denied"
  else .exitOk "✓ moved"

/-- A tracker that rejects the move to Delivering pending a required
field and accepts everything else. -/
def cliFieldGate : Cli := fun label =>
  if label == "Delivering" then .exitErr "please fill in Dev Start Date"
  else .exitOk "✓ moved"

/-- A tracker that rejects the canonical Waiting label but accepts its
configured alias label. -/
def cliAliasOk : Cli := fun label =>
  if label == "TO DO" then .exitOk "✓ done" else .exitErr "nope"

/-- A tracker that rejects the canonical Waiting label and its alias. -/
def cliAliasFail : Cli := fun label =>
  if label == "Waiting" then .exitErr "nope" else .exitErr "still no"

/-- A tracker whose move command exits successfully but prints an error
marker on stdout. -/
def cliNoisyError : Cli := fun _ =>
  .exitOk "Error: transition not allowed"

/-- A tracker whose move command exits successfully with clean output. -/
def cliCleanOk : Cli := fun _ =>
  .exitOk "Moved to Done"

/-- Issue fields where both managed dev dates already hold values. -/
def rawBothSet : String → Option String := fun id =>
  if id == devStartDate.id then some "2024-01-01"
  else if id == devDueDate.id then some "2024-03-03"
  else if id == plannedStart.id then some "2024-02-02"
  else none

/-- Issue fields where Dev Start Date is absent but its planned
counterpart (and Dev Due Date) hold values. -/
def rawStartMissing : String → Option String := fun id =>
  if id == devDueDate.id then some "2024-03-03"
  else if id == plannedStart.id then some "2024-02-02"
  else none

/-- Issue fields where Dev Due Date is absent but its planned counterpart
(and Dev Start Date) hold values. -/
def rawDueMissing : String → Option String := fun id =>
  if id == devStartDate.id then some "2024-01-01"
  else if id == plannedDue.id then some "2024-04-04"
  else none

/-- A field write that always succeeds. -/
def writeOk : List (String × String) → Except String Unit := fun _ =>
  .ok ()

/-- A field write that always fails. -/
def writeFail : List (String × String) → Except String Unit := fun _ =>
  .error "Failed to update fields (HTTP 500): boom"

/-! ## Character and trimming lemmas -/

theorem toNat_ofNat_valid (n : Nat) (h : n.isValidChar) : (Char.ofNat n).toNat = n := by
  rw [Char.ofNat, dif_pos h]
  rfl

theorem upChar_upChar (c : Char) : upChar (upChar c) = upChar c := by
  unfold upChar
  by_cases h : 97 ≤ c.toNat ∧ c.toNat ≤ 122
  · rw [if_pos h]
    have hv : (c.toNat - 32).isValidChar := Or.inl (by omega)
    have ht : (Char.ofNat (c.toNat - 32)).toNat = c.toNat - 32 := toNat_ofNat_valid _ hv
    rw [if_neg]
    omega
  · rw [if_neg h, if_neg h]

theorem isWsChar_upChar (c : Char) : isWsChar (upChar c) = isWsChar c := by
  unfold upChar isWsChar
  by_cases h : 97 ≤ c.toNat ∧ c.toNat ≤ 122
  · rw [if_pos h]
    have hv : (c.toNat - 32).isValidChar := Or.inl (by omega)
    have ht : (Char.ofNat (c.toNat - 32)).toNat = c.toNat - 32 := toNat_ofNat_valid _ hv
    rw [ht]
    have e1 : ∀ m : Nat, 65 ≤ m → m ≤ 90 →
        ((m == 32 || m == 9 || m == 10 || m == 13) = false) := by
      intro m h1 h2
      simp only [Bool.or_eq_false_iff, beq_eq_false_iff_ne, ne_eq]
      omega
    have e2 : ((c.toNat == 32 || c.toNat == 9 || c.toNat == 10 || c.toNat == 13) = false) := by
      simp only [Bool.or_eq_false_iff, beq_eq_false_iff_ne, ne_eq]
      omega
    rw [e1 _ (by omega) (by omega), e2]
  · rw [if_neg h]

theorem dropWhile_dropWhile (p : Char → Bool) (l : List Char) :
    (l.dropWhile p).dropWhile p = l.dropWhile p := by
  induction l with
  | nil => rfl
  | cons a t ih =>
    by_cases h : p a
    · simp [List.dropWhile_cons, h, ih]
    · simp [List.dropWhile_cons, h]

theorem head?_dropWhile (p : Char → Bool) (l : List Char) :
    ∀ c ∈ (l.dropWhile p).head?, p c = false := by
  induction l with
  | nil => intro c h; simp at h
  | cons a t ih =>
    intro c h
    by_cases ha : p a
    · exact ih c (by simpa [List.dropWhile_cons, ha] using h)
    · simp [List.dropWhile_cons, ha] at h
      simpa [h] using ha

theorem dropWhile_eq_self_of_head (p : Char → Bool) (l : List Char)
    (h : ∀ c ∈ l.head?, p c = false) : l.dropWhile p = l := by
  cases l with
  | nil => rfl
  | cons a t =>
    have := h a (by simp)
    simp [List.dropWhile_cons, this]

theorem trimChars_trimChars (l : List Char) : trimChars (trimChars l) = trimChars l := by
  unfold trimChars
  set u := l.dropWhile isWsChar with hu
  set w := u.reverse.dropWhile isWsChar with hw
  have hdw : w.reverse.dropWhile isWsChar = w.reverse := by
    apply dropWhile_eq_self_of_head
    intro c hc
    rw [List.head?_reverse] at hc
    rcases hwnil : w with _ | ⟨a, t⟩
    · rw [hwnil] at hc; simp at hc
    · have hsuf : w <:+ u.reverse := hw ▸ List.dropWhile_suffix isWsChar
      rcases hsuf with ⟨pre, hpre⟩
      have hlast : u.reverse.getLast? = w.getLast? := by
        rw [← hpre]
        exact List.getLast?_append_of_ne_nil pre (by rw [hwnil]; simp)
      have hrev : u.reverse.getLast? = u.head? := List.getLast?_reverse u
      have hc' : c ∈ u.head? := by
        rw [← hrev, hlast]
        exact hc
      exact head?_dropWhile isWsChar l c (hu ▸ hc')
  rw [hdw, List.reverse_reverse, hw, dropWhile_dropWhile]

theorem dropWhile_map_upChar (l : List Char) :
    (l.map upChar).dropWhile isWsChar = (l.dropWhile isWsChar).map upChar := by
  rw [List.dropWhile_map]
  have h : (isWsChar ∘ upChar) = isWsChar := funext isWsChar_upChar
  rw [h]

theorem trimChars_map_upChar (l : List Char) :
    trimChars (l.map upChar) = (trimChars l).map upChar := by
  unfold trimChars
  rw [dropWhile_map_upChar, ← List.map_reverse, dropWhile_map_upChar, ← List.map_reverse]

theorem canon_list_idem (l : List Char) :
    (trimChars ((trimChars l).map upChar)).map upChar = (trimChars l).map upChar := by
  rw [trimChars_map_upChar, trimChars_trimChars, List.map_map]
  congr 1
  funext c
  exact upChar_upChar c

theorem canonStr_idem (s : String) :
    jsToUpper (jsTrim (jsToUpper (jsTrim s))) = jsToUpper (jsTrim s) := by
  unfold jsToUpper jsTrim
  have h1 : (List.asString (trimChars s.toList)).toList = trimChars s.toList := rfl
  have h2 : ∀ l : List Char, (List.asString l).toList = l := fun _ => rfl
  rw [h2, h2]
  exact congrArg List.asString (canon_list_idem s.toList)

/-- C9.  Status normalization is idempotent: trimming, uppercasing and
alias resolution applied twice give the same result as applied once. -/
theorem normalizeStatus_idempotent (s : String) :
    normalizeStatus (normalizeStatus s) = normalizeStatus s := by
  unfold normalizeStatus
  simp only [STATUS_ALIASES, List.lookup]
  cases h : (jsToUpper (jsTrim s) == "TO DO") with
  | true =>
    simp only [h]
    decide
  | false =>
    simp only [h, canonStr_idem s]

/-! ## Workflow table lemmas -/

theorem workflow_member_remaining :
    ∀ j : Fin WORKFLOW.length, getRemainingSteps (WORKFLOW[j.val]).status = WORKFLOW.drop (j.val + 1) := by
  decide

theorem remaining_of_drop_cons (n : Nat) (w : WorkflowStep) (tl : List WorkflowStep)
    (h : WORKFLOW.drop n = w :: tl) : getRemainingSteps w.status = tl := by
  have hn : n < WORKFLOW.length := by
    by_contra hle
    push_neg at hle
    rw [List.drop_eq_nil_of_le hle] at h
    simp at h
  have hdrop := @List.drop_eq_getElem_cons WorkflowStep n WORKFLOW hn
  rw [hdrop] at h
  injection h with hw htl
  have hmem := workflow_member_remaining ⟨n, hn⟩
  rw [hw] at hmem
  rw [hmem, htl]

theorem remaining_getLastD (pre : List WorkflowStep) :
    ∀ (k : Nat) (d : String) (failStep : WorkflowStep) (post : List WorkflowStep),
    WORKFLOW.drop k = pre ++ failStep :: post → pre ≠ [] →
    getRemainingSteps ((pre.map (fun st => st.status)).getLastD d) = failStep :: post := by
  induction pre with
  | nil =>
    intro k d f p _ hne
    exact absurd rfl hne
  | cons a pre ih =>
    intro k d f p h _
    cases hp : pre with
    | nil =>
      subst hp
      simp only [List.map_cons, List.map_nil, List.getLastD_cons, List.getLastD_nil]
      exact remaining_of_drop_cons k a (f :: p) (by simpa using h)
    | cons b pre2 =>
      have h1 : WORKFLOW.drop (k + 1) = pre ++ f :: p := by
        rw [← List.tail_drop, h]
        subst hp
        rfl
      rw [List.map_cons, List.getLastD_cons]
      subst hp
      exact ih (k + 1) a.status f p h1 (by simp)

theorem remaining_exists_drop (s : String) (l : List WorkflowStep)
    (h : getRemainingSteps s = l) (hne : l ≠ []) : ∃ k, WORKFLOW.drop k = l := by
  unfold getRemainingSteps getWorkflowIndex at h
  cases hf : WORKFLOW.findIdx? (fun w => normalizeStatus w.status == normalizeStatus s) with
  | none =>
    rw [hf] at h
    simp at h
    exact absurd h hne
  | some n =>
    rw [hf] at h
    have hb : ((n : Int) == -1) = false := by
      simp only [beq_eq_false_iff_ne, ne_eq]
      omega
    simp only [hb, Bool.false_eq_true, if_false] at h
    have ht : ((n : Int) + 1).toNat = n + 1 := by omega
    rw [ht] at h
    exact ⟨n + 1, h⟩

/-! ## Run-loop lemmas -/

theorem runLoop_cons_ok (cli : Cli) (cur : String) (comp : List String)
    (step : WorkflowStep) (rest : List WorkflowStep) (labels : List String)
    (h : transitionIssue cli step.status = (.ok (), labels)) :
    runLoop cli cur comp (step :: rest) =
      ⟨(runLoop cli step.status (comp ++ [step.emoji ++ " " ++ step.status]) rest).outcome,
       (step.status, labels) ::
         (runLoop cli step.status (comp ++ [step.emoji ++ " " ++ step.status]) rest).attempts⟩ := by
  simp only [runLoop]
  rw [h]

theorem runLoop_cons_error_halt (cli : Cli) (cur : String) (comp : List String)
    (step : WorkflowStep) (rest : List WorkflowStep) (msg : String) (labels : List String)
    (h : transitionIssue cli step.status = (.error msg, labels))
    (hm : parseMissingFieldsFromError msg = []) :
    runLoop cli cur comp (step :: rest) =
      ⟨.error step.status comp msg cur, [(step.status, labels)]⟩ := by
  simp only [runLoop]
  rw [h]
  simp [hm]

theorem runLoop_cons_error_suspend (cli : Cli) (cur : String) (comp : List String)
    (step : WorkflowStep) (rest : List WorkflowStep) (msg : String) (labels : List String)
    (h : transitionIssue cli step.status = (.error msg, labels))
    (hm : parseMissingFieldsFromError msg ≠ []) :
    runLoop cli cur comp (step :: rest) =
      ⟨.suspended cur (parseMissingFieldsFromError msg) cur, [(step.status, labels)]⟩ := by
  simp only [runLoop]
  rw [h]
  simp [hm]

theorem runLoop_ok_segment (cli : Cli) (pre : List WorkflowStep) :
    ∀ (rest : List WorkflowStep) (cur : String) (comp : List String),
    (∀ st ∈ pre, (transitionIssue cli st.status).1 = .ok ()) →
    runLoop cli cur comp (pre ++ rest) =
      ⟨(runLoop cli ((pre.map (fun st => st.status)).getLastD cur)
          (comp ++ pre.map (fun st => st.emoji ++ " " ++ st.status)) rest).outcome,
       pre.map (fun st => (st.status, (transitionIssue cli st.status).2)) ++
         (runLoop cli ((pre.map (fun st => st.status)).getLastD cur)
            (comp ++ pre.map (fun st => st.emoji ++ " " ++ st.status)) rest).attempts⟩ := by
  induction pre with
  | nil =>
    intro rest cur comp _
    simp
  | cons a pre ih =>
    intro rest cur comp hok
    have ha : (transitionIssue cli a.status).1 = .ok () := hok a (by simp)
    have hpair : transitionIssue cli a.status = (.ok (), (transitionIssue cli a.status).2) := by
      rw [← ha]
    rw [List.cons_append, runLoop_cons_ok cli cur comp a (pre ++ rest) _ hpair]
    rw [ih rest a.status (comp ++ [a.emoji ++ " " ++ a.status])
      (fun st hst => hok st (by simp [hst]))]
    simp only [List.map_cons, List.getLastD_cons, List.cons_append, List.append_assoc,
      List.singleton_append, List.nil_append]

theorem runLoop_attempts_head (cli : Cli) (cur : String) (comp : List String)
    (step : WorkflowStep) (rest : List WorkflowStep) :
    (runLoop cli cur comp (step :: rest)).attempts.head? =
      some (step.status, (transitionIssue cli step.status).2) := by
  rcases hp : transitionIssue cli step.status with ⟨res, labels⟩
  have hl : labels = (transitionIssue cli step.status).2 := by rw [hp]
  cases res with
  | ok u =>
    cases u
    rw [runLoop_cons_ok cli cur comp step rest labels hp]
    simp [hl]
  | error msg =>
    by_cases hm : parseMissingFieldsFromError msg = []
    · rw [runLoop_cons_error_halt cli cur comp step rest msg labels hp hm]
      simp [hl]
    · rw [runLoop_cons_error_suspend cli cur comp step rest msg labels hp hm]
      simp [hl]

theorem runLoop_attempts_labels (cli : Cli) (l : List WorkflowStep) :
    ∀ (cur : String) (comp : List String),
    ∀ e ∈ (runLoop cli cur comp l).attempts, e.2 = (transitionIssue cli e.1).2 := by
  induction l with
  | nil =>
    intro cur comp e he
    simp [runLoop] at he
  | cons step rest ih =>
    intro cur comp e he
    rcases hp : transitionIssue cli step.status with ⟨res, labels⟩
    have hl : labels = (transitionIssue cli step.status).2 := by rw [hp]
    cases res with
    | ok u =>
      cases u
      rw [runLoop_cons_ok cli cur comp step rest labels hp] at he
      simp only [List.mem_cons] at he
      rcases he with he | he
      · rw [he, hl]
      · exact ih step.status (comp ++ [step.emoji ++ " " ++ step.status]) e he
    | error msg =>
      by_cases hm : parseMissingFieldsFromError msg = []
      · rw [runLoop_cons_error_halt cli cur comp step rest msg labels hp hm] at he
        simp only [List.mem_singleton] at he
        rw [he, hl]
      · rw [runLoop_cons_error_suspend cli cur comp step rest msg labels hp hm] at he
        simp only [List.mem_singleton] at he
        rw [he, hl]

theorem runTransitionLoop_nonempty (cli : Cli) (s : String) (l : List WorkflowStep)
    (h : getRemainingSteps s = l) (hne : l ≠ []) :
    runTransitionLoop cli s = runLoop cli s [] l := by
  unfold runTransitionLoop
  rw [h]
  cases l with
  | nil => exact absurd rfl hne
  | cons a t => rfl

/-! ## Claim theorems for the run-to-completion chain -/

/-- C1.  A multi-step run to completion starting from a recognized
non-terminal status halts immediately when the transition to a remaining
stage fails with a rejection not classified as missing required fields:
the result is the error state recording the failed stage, the stages
completed before it and the message; the issue's recorded status is the
last successfully reached stage (the starting status when none succeeded);
and no stage beyond the failed one is attempted. -/
theorem runToCompletion_halts_on_failure (cli : Cli) (s : String)
    (pre post : List WorkflowStep) (failStep : WorkflowStep) (msg : String)
    (hrem : getRemainingSteps s = pre ++ failStep :: post)
    (hok : ∀ st ∈ pre, (transitionIssue cli st.status).1 = .ok ())
    (hfail : (transitionIssue cli failStep.status).1 = .error msg)
    (hclass : parseMissingFieldsFromError msg = []) :
    runTransitionLoop cli s =
      ⟨.error failStep.status (pre.map (fun st => st.emoji ++ " " ++ st.status)) msg
          ((pre.map (fun st => st.status)).getLastD s),
       (pre ++ [failStep]).map (fun st => (st.status, (transitionIssue cli st.status).2))⟩ := by
  have hne : pre ++ failStep :: post ≠ [] := by simp
  rw [runTransitionLoop_nonempty cli s _ hrem hne,
      runLoop_ok_segment cli pre (failStep :: post) s [] hok]
  have hpair : transitionIssue cli failStep.status =
      (.error msg, (transitionIssue cli failStep.status).2) := by
    rw [← hfail]
  rw [runLoop_cons_error_halt cli _ _ failStep post msg _ hpair hclass]
  simp [List.map_append]

/-- C2.  When a run-to-completion chain fails at a stage with a rejection
classified as missing required fields, the run suspends offering resumption
from the current already-advanced status (the last successfully reached
stage); the remaining stages from that status start exactly at the failed
stage, so the resumed chain re-attempts the failed stage first, not the
original starting status. -/
theorem runToCompletion_missing_field_resume (cli : Cli) (s : String)
    (pre post : List WorkflowStep) (failStep : WorkflowStep) (msg : String)
    (hrem : getRemainingSteps s = pre ++ failStep :: post)
    (hok : ∀ st ∈ pre, (transitionIssue cli st.status).1 = .ok ())
    (hfail : (transitionIssue cli failStep.status).1 = .error msg)
    (hclass : parseMissingFieldsFromError msg ≠ []) :
    runTransitionLoop cli s =
      ⟨.suspended ((pre.map (fun st => st.status)).getLastD s)
          (parseMissingFieldsFromError msg)
          ((pre.map (fun st => st.status)).getLastD s),
       (pre ++ [failStep]).map (fun st => (st.status, (transitionIssue cli st.status).2))⟩ ∧
    getRemainingSteps ((pre.map (fun st => st.status)).getLastD s) = failStep :: post ∧
    (∀ cli2 : Cli,
      (runTransitionLoop cli2 ((pre.map (fun st => st.status)).getLastD s)).attempts.head? =
        some (failStep.status, (transitionIssue cli2 failStep.status).2)) := by
  have hne : pre ++ failStep :: post ≠ [] := by simp
  have hres : getRemainingSteps ((pre.map (fun st => st.status)).getLastD s) =
      failStep :: post := by
    by_cases hp : pre = []
    · subst hp
      simpa using hrem
    · obtain ⟨k, hk⟩ := remaining_exists_drop s _ hrem hne
      exact remaining_getLastD pre k s failStep post hk hp
  refine ⟨?_, hres, ?_⟩
  · rw [runTransitionLoop_nonempty cli s _ hrem hne,
        runLoop_ok_segment cli pre (failStep :: post) s [] hok]
    have hpair : transitionIssue cli failStep.status =
        (.error msg, (transitionIssue cli failStep.status).2) := by
      rw [← hfail]
    rw [runLoop_cons_error_suspend cli _ _ failStep post msg _ hpair hclass]
    simp [List.map_append]
  · intro cli2
    rw [runTransitionLoop_nonempty cli2 _ _ hres (by simp)]
    exact runLoop_attempts_head cli2 _ [] failStep post

/-- C3 is refuted: with a tracker that rejects the chained move to
Delivering while enumerating the drifted label, the chain does not stop at
the rejection — it retries once under the resolver-matched label
"Move to Delivering" and runs to completion. -/
theorem chain_fallback_counterexample :
    runTransitionLoop cliResolverRetry "Regression" =
      ⟨.done, [("Delivering", ["Delivering", "Move to Delivering"]), ("Done", ["Done"])]⟩ := by
  decide

/-- C3 (amended).  During a multi-step run to completion, each per-stage
transition is attempted through the full single-transition engine,
including its resolver retry and alias fallback: the labels recorded for
each attempted stage are exactly those the single-transition engine tried,
and when that engine reports success for a stage (possibly after an
internal retry) the chain continues with the next remaining stage instead
of stopping. -/
theorem chain_uses_full_engine (cli : Cli) (s : String) :
    (∀ e ∈ (runTransitionLoop cli s).attempts, e.2 = (transitionIssue cli e.1).2) ∧
    (∀ (pre rest : List WorkflowStep) (step p0 : WorkflowStep),
      getRemainingSteps s = pre ++ step :: p0 :: rest →
      (∀ st ∈ pre, (transitionIssue cli st.status).1 = .ok ()) →
      (transitionIssue cli step.status).1 = .ok () →
      ((runTransitionLoop cli s).attempts.map Prod.fst).take (pre.length + 2) =
        (pre ++ [step, p0]).map (fun st => st.status)) := by
  constructor
  · intro e he
    unfold runTransitionLoop at he
    cases hr : getRemainingSteps s with
    | nil =>
      rw [hr] at he
      simp at he
    | cons a t =>
      rw [hr] at he
      exact runLoop_attempts_labels cli (a :: t) s [] e he
  · intro pre rest step p0 hrem hok hstep
    rw [runTransitionLoop_nonempty cli s _ hrem (by simp),
        runLoop_ok_segment cli pre (step :: p0 :: rest) s [] hok]
    have hpair : transitionIssue cli step.status =
        (.ok (), (transitionIssue cli step.status).2) := by
      rw [← hstep]
    rw [runLoop_cons_ok cli _ _ step (p0 :: rest) _ hpair]
    have hh := runLoop_attempts_head cli step.status
      (([] : List String) ++ pre.map (fun st => st.emoji ++ " " ++ st.status) ++
        [step.emoji ++ " " ++ step.status]) p0 rest
    cases hat : (runLoop cli step.status
        (([] : List String) ++ pre.map (fun st => st.emoji ++ " " ++ st.status) ++
          [step.emoji ++ " " ++ step.status]) (p0 :: rest)).attempts with
    | nil =>
      rw [hat] at hh
      simp at hh
    | cons q qs =>
      rw [hat] at hh
      simp only [List.head?_cons, Option.some.injEq] at hh
      simp only [hat, hh, List.map_append, List.map_cons, List.map_map]
      have hlen : pre.length + 2 = (pre.map (fun st => st.status)).length + 2 := by
        simp
      rw [show (List.map (Prod.fst ∘ fun st => (st.status, (transitionIssue cli st.status).2)) pre)
            = pre.map (fun st => st.status) from by simp [Function.comp]]
      rw [hlen, List.take_append 2]
      simp

/-! ## Workflow table claim theorems -/

/-- C8.  For a status resolving to a stage at index n, the remaining
sequence has length totalStages - n - 1; an unrecognized status (index -1)
has no remaining stages; and remaining("Done") is empty. -/
theorem remaining_length_spec :
    (∀ (s : String) (n : Int), getWorkflowIndex s = n →
      (n ≠ -1 → ((getRemainingSteps s).length : Int) = (WORKFLOW.length : Int) - n - 1) ∧
      (n = -1 → getRemainingSteps s = [])) ∧
    getRemainingSteps "Done" = [] := by
  constructor
  · intro s n hn
    unfold getWorkflowIndex at hn
    cases hf : WORKFLOW.findIdx? (fun w => normalizeStatus w.status == normalizeStatus s) with
    | none =>
      rw [hf] at hn
      constructor
      · intro hne
        exact absurd hn.symm hne
      · intro _
        unfold getRemainingSteps getWorkflowIndex
        rw [hf]
        rfl
    | some i =>
      rw [hf] at hn
      subst hn
      have hlt : i < WORKFLOW.length := by
        obtain ⟨h, -⟩ := List.findIdx?_eq_some_iff_getElem.mp hf
        exact h
      constructor
      · intro _
        unfold getRemainingSteps getWorkflowIndex
        rw [hf]
        have hb : ((i : Int) == -1) = false := by
          simp only [beq_eq_false_iff_ne, ne_eq]
          omega
        simp only [hb, Bool.false_eq_true, if_false]
        have ht : ((i : Int) + 1).toNat = i + 1 := by omega
        rw [ht, List.length_drop]
        omega
      · intro hcon
        have hcon2 : (i : Int) = -1 := hcon
        exact absurd hcon2 (by intro hh; omega)
  · decide

/-! ## Single-transition engine claim theorems -/

theorem tryFallbacks_all_fail (cli : Cli) (fbs : List String)
    (h : ∀ f ∈ fbs, ∃ e2, tryMove cli f = .error e2) :
    tryFallbacks cli fbs = (false, fbs) := by
  induction fbs with
  | nil => rfl
  | cons f rest ih =>
    obtain ⟨e2, he⟩ := h f (by simp)
    simp only [tryFallbacks]
    rw [he, ih (fun g hg => h g (by simp [hg]))]

theorem tryFallbacks_first_ok (cli : Cli) (fpre : List String) :
    ∀ (f : String) (frest : List String),
    (∀ g ∈ fpre, ∃ e2, tryMove cli g = .error e2) → tryMove cli f = .ok () →
    tryFallbacks cli (fpre ++ f :: frest) = (true, fpre ++ [f]) := by
  induction fpre with
  | nil =>
    intro f frest _ hf
    simp only [List.nil_append, tryFallbacks]
    rw [hf]
  | cons g rest ih =>
    intro f frest hfails hf
    obtain ⟨e2, he⟩ := hfails g (by simp)
    simp only [List.cons_append, tryFallbacks, List.append_eq]
    rw [he, ih f frest (fun g2 hg2 => hfails g2 (by simp [hg2])) hf]

/-- C4.  A single transition request first attempts the canonical target
label; on rejection, a resolver match from the rejection text is retried
exactly once and its result is final; otherwise the configured alias labels
are tried in order until one succeeds; and when no resolver match exists
and every alias fails, the surfaced error is the original rejection. -/
theorem transitionIssue_retry_policy (cli : Cli) (target : String) :
    (tryMove cli target = .ok () → transitionIssue cli target = (.ok (), [target])) ∧
    (∀ e, tryMove cli target = .error e →
      (∀ m, findMatchingTransition target (parseAvailableTransitions e) = some m →
        transitionIssue cli target = (tryMove cli m, [target, m])) ∧
      (findMatchingTransition target (parseAvailableTransitions e) = none →
        ((∀ f ∈ (STATUS_FALLBACKS.lookup (jsToUpper target)).getD [],
            ∃ e2, tryMove cli f = .error e2) →
          transitionIssue cli target =
            (.error e, target :: (STATUS_FALLBACKS.lookup (jsToUpper target)).getD [])) ∧
        (∀ fpre f frest,
          (STATUS_FALLBACKS.lookup (jsToUpper target)).getD [] = fpre ++ f :: frest →
          (∀ g ∈ fpre, ∃ e2, tryMove cli g = .error e2) → tryMove cli f = .ok () →
          transitionIssue cli target = (.ok (), target :: (fpre ++ [f]))))) := by
  constructor
  · intro h
    simp only [transitionIssue]
    rw [h]
  · intro e he
    constructor
    · intro m hm
      simp only [transitionIssue, he, hm]
    · intro hnone
      constructor
      · intro hall
        have ht := tryFallbacks_all_fail cli _ hall
        simp only [transitionIssue, he, hnone, ht]
        simp
      · intro fpre f frest hdec hfails hfok
        have ht := tryFallbacks_first_ok cli fpre f frest hfails hfok
        simp only [transitionIssue, he, hnone, hdec, ht]
        simp

theorem jsToUpper_append (a b : String) : jsToUpper (a ++ b) = jsToUpper a ++ jsToUpper b := by
  unfold jsToUpper
  have h : (a ++ b).toList = a.toList ++ b.toList := String.data_append a b
  rw [h, List.map_append]
  rfl

/-- C5.  The transition resolver agrees with the specification's
first-match-wins, case-insensitive rules (exact, then "BACK TO " + target,
then strict suffix, else none); it yields none exactly when no label
satisfies any rule, and on the spec's examples it picks "Return to Doing"
for target "Doing" and finds nothing among ["Done"]. -/
theorem findMatchingTransition_spec (target : String) (available : List String) :
    findMatchingTransition target available = resolverSpecRule target available ∧
    (findMatchingTransition target available = none ↔
      ∀ l ∈ available, jsToUpper l ≠ jsToUpper target ∧
        jsToUpper l ≠ "BACK TO " ++ jsToUpper target ∧
        ¬(jsEndsWith (jsToUpper l) (jsToUpper target) = true ∧
          jsToUpper l ≠ jsToUpper target)) ∧
    findMatchingTransition "Doing" ["Return to Doing", "Cancel"] = some "Return to Doing" ∧
    findMatchingTransition "Doing" ["Done"] = none := by
  have hback : jsToUpper ("BACK TO " ++ target) = "BACK TO " ++ jsToUpper target := by
    rw [jsToUpper_append]
    have : jsToUpper "BACK TO " = "BACK TO " := by decide
    rw [this]
  refine ⟨?_, ?_, by decide, by decide⟩
  · simp only [findMatchingTransition, resolverSpecRule, bne]
    rw [hback]
    cases h1 : available.find? (fun l => jsToUpper l == jsToUpper target) with
    | some l => rfl
    | none =>
      cases h2 : available.find? (fun l => jsToUpper l == "BACK TO " ++ jsToUpper target) with
      | some l => rfl
      | none =>
        cases h3 : available.find? (fun l =>
            jsEndsWith (jsToUpper l) (jsToUpper target) && !(jsToUpper l == jsToUpper target)) with
        | some l => rfl
        | none => rfl
  · simp only [findMatchingTransition, bne]
    cases h1 : available.find? (fun l => jsToUpper l == jsToUpper target) with
    | some l =>
      constructor
      · intro hcon
        exact absurd hcon (by simp)
      · intro hall
        exfalso
        have hmem := List.mem_of_find?_eq_some h1
        have hp := List.find?_some h1
        simp only [beq_iff_eq] at hp
        exact (hall l hmem).1 hp
    | none =>
      cases h2 : available.find? (fun l => jsToUpper l == "BACK TO " ++ jsToUpper target) with
      | some l =>
        constructor
        · intro hcon
          exact absurd hcon (by simp)
        · intro hall
          exfalso
          have hmem := List.mem_of_find?_eq_some h2
          have hp := List.find?_some h2
          simp only [beq_iff_eq] at hp
          exact (hall l hmem).2.1 hp
      | none =>
        cases h3 : available.find? (fun l =>
            jsEndsWith (jsToUpper l) (jsToUpper target) && !(jsToUpper l == jsToUpper target)) with
        | some l =>
          constructor
          · intro hcon
            exact absurd hcon (by simp)
          · intro hall
            exfalso
            have hmem := List.mem_of_find?_eq_some h3
            have hp := List.find?_some h3
            simp only [Bool.and_eq_true, Bool.not_eq_true', beq_eq_false_iff_ne, ne_eq] at hp
            exact (hall l hmem).2.2 ⟨hp.1, hp.2⟩
        | none =>
          simp only [true_iff]
          intro l hl
          have k1 := List.find?_eq_none.mp h1 l hl
          have k2 := List.find?_eq_none.mp h2 l hl
          have k3 := List.find?_eq_none.mp h3 l hl
          simp only [beq_iff_eq] at k1 k2
          simp only [Bool.and_eq_true, Bool.not_eq_true', beq_eq_false_iff_ne, ne_eq,
            not_and] at k3
          exact ⟨k1, k2, fun hc => (k3 hc.1) hc.2⟩

/-! ## Field auto-filler claim theorems -/

/-- C6.  The auto-filler never overwrites a managed target field that
already holds a value: such a field appears in neither the filled nor the
still-missing list and no write for it is issued; when both managed fields
hold values nothing is filled, nothing is missing and no write at all is
issued. -/
theorem fillFromPlanned_truthy (t : DevDateField) (cur pl : Option String)
    (h : truthyOpt cur = true) : fillFromPlanned t cur pl = ([], [], []) := by
  unfold fillFromPlanned
  rw [if_pos h]

theorem fillFromPlanned_mem_filled (t : DevDateField) (cur pl : Option String) :
    ∀ x ∈ (fillFromPlanned t cur pl).2.1, x = t.name := by
  unfold fillFromPlanned
  split
  · simp
  · split
    · simp
    · simp

theorem fillFromPlanned_mem_missing (t : DevDateField) (cur pl : Option String) :
    ∀ x ∈ (fillFromPlanned t cur pl).2.2, x = t.name := by
  unfold fillFromPlanned
  split
  · simp
  · split
    · simp
    · simp

theorem fillFromPlanned_mem_toFill (t : DevDateField) (cur pl : Option String) :
    ∀ p ∈ (fillFromPlanned t cur pl).1, Prod.fst p = t.name := by
  unfold fillFromPlanned
  split
  · simp
  · split
    · simp
    · simp

theorem autoFillDevDates_writes (raw : String → Option String)
    (write : List (String × String) → Except String Unit) :
    (autoFillDevDates raw write).writes =
      if (autoFillCompute raw).1.isEmpty then [] else [(autoFillCompute raw).1] := by
  unfold autoFillDevDates
  by_cases hc : (autoFillCompute raw).1.isEmpty
  · simp [hc]
  · simp only [hc, Bool.false_eq_true, if_false]
    cases write (autoFillCompute raw).1 <;> rfl

/-- C6.  The auto-filler never overwrites a managed target field that
already holds a value: such a field appears in neither the filled nor the
still-missing list and no write for it is issued; when both managed fields
hold values nothing is filled, nothing is missing and no write at all is
issued. -/
theorem autoFill_never_overwrites (raw : String → Option String)
    (write : List (String × String) → Except String Unit) :
    (truthyOpt (raw devStartDate.id) = true →
      devStartDate.name ∉ (autoFillCompute raw).2.1 ∧
      devStartDate.name ∉ (autoFillCompute raw).2.2 ∧
      (∀ b ∈ (autoFillDevDates raw write).writes, ∀ p ∈ b, p.1 ≠ devStartDate.name)) ∧
    (truthyOpt (raw devDueDate.id) = true →
      devDueDate.name ∉ (autoFillCompute raw).2.1 ∧
      devDueDate.name ∉ (autoFillCompute raw).2.2 ∧
      (∀ b ∈ (autoFillDevDates raw write).writes, ∀ p ∈ b, p.1 ≠ devDueDate.name)) ∧
    (truthyOpt (raw devStartDate.id) = true → truthyOpt (raw devDueDate.id) = true →
      autoFillDevDates raw write = ⟨.ok ([], []), []⟩) := by
  have hname : devDueDate.name ≠ devStartDate.name := by decide
  have hname2 : devStartDate.name ≠ devDueDate.name := by decide
  refine ⟨?_, ?_, ?_⟩
  · intro h1
    have hs := fillFromPlanned_truthy devStartDate (raw devStartDate.id) (raw plannedStart.id) h1
    refine ⟨?_, ?_, ?_⟩
    · intro hmem
      unfold autoFillCompute at hmem
      rw [hs] at hmem
      simp only [List.nil_append] at hmem
      exact hname2
        (fillFromPlanned_mem_filled devDueDate (raw devDueDate.id) (raw plannedDue.id) _ hmem)
    · intro hmem
      unfold autoFillCompute at hmem
      rw [hs] at hmem
      simp only [List.nil_append] at hmem
      exact hname2
        (fillFromPlanned_mem_missing devDueDate (raw devDueDate.id) (raw plannedDue.id) _ hmem)
    · intro b hb p hp
      rw [autoFillDevDates_writes] at hb
      by_cases hc : (autoFillCompute raw).1.isEmpty
      · rw [if_pos hc] at hb
        simp at hb
      · rw [if_neg hc] at hb
        simp only [List.mem_singleton] at hb
        subst hb
        unfold autoFillCompute at hp
        rw [hs] at hp
        simp only [List.nil_append] at hp
        rw [fillFromPlanned_mem_toFill devDueDate (raw devDueDate.id) (raw plannedDue.id) p hp]
        exact hname
  · intro h2
    have hd := fillFromPlanned_truthy devDueDate (raw devDueDate.id) (raw plannedDue.id) h2
    refine ⟨?_, ?_, ?_⟩
    · intro hmem
      unfold autoFillCompute at hmem
      rw [hd] at hmem
      simp only [List.append_nil] at hmem
      exact hname
        (fillFromPlanned_mem_filled devStartDate (raw devStartDate.id) (raw plannedStart.id) _ hmem)
    · intro hmem
      unfold autoFillCompute at hmem
      rw [hd] at hmem
      simp only [List.append_nil] at hmem
      exact hname
        (fillFromPlanned_mem_missing devStartDate (raw devStartDate.id) (raw plannedStart.id) _ hmem)
    · intro b hb p hp
      rw [autoFillDevDates_writes] at hb
      by_cases hc : (autoFillCompute raw).1.isEmpty
      · rw [if_pos hc] at hb
        simp at hb
      · rw [if_neg hc] at hb
        simp only [List.mem_singleton] at hb
        subst hb
        unfold autoFillCompute at hp
        rw [hd] at hp
        simp only [List.append_nil] at hp
        rw [fillFromPlanned_mem_toFill devStartDate (raw devStartDate.id) (raw plannedStart.id) p hp]
        exact hname2
  · intro h1 h2
    have hs := fillFromPlanned_truthy devStartDate (raw devStartDate.id) (raw plannedStart.id) h1
    have hd := fillFromPlanned_truthy devDueDate (raw devDueDate.id) (raw plannedDue.id) h2
    have hc : autoFillCompute raw = ([], [], []) := by
      unfold autoFillCompute
      rw [hs, hd]
      rfl
    unfold autoFillDevDates
    rw [hc]
    rfl

theorem autoFillDevDates_result (raw : String → Option String)
    (write : List (String × String) → Except String Unit)
    (hne : (autoFillCompute raw).1.isEmpty = false) :
    (autoFillDevDates raw write).writes = [(autoFillCompute raw).1] ∧
    (∀ e, write (autoFillCompute raw).1 = .error e →
      (autoFillDevDates raw write).result = .error e) ∧
    (write (autoFillCompute raw).1 = .ok () →
      (autoFillDevDates raw write).result =
        .ok ((autoFillCompute raw).2.1, (autoFillCompute raw).2.2)) := by
  refine ⟨?_, ?_, ?_⟩
  · rw [autoFillDevDates_writes, hne]
    rfl
  · intro e he
    simp only [autoFillDevDates, hne, Bool.false_eq_true, if_false]
    rw [he]
  · intro hok
    simp only [autoFillDevDates, hne, Bool.false_eq_true, if_false]
    rw [hok]

/-- C7.  For each managed field pair, when the target field is absent and
its planned counterpart holds a value, the auto-filler copies the planned
value verbatim into the target, reports the target field as filled, issues
exactly one batched write containing it, and propagates a failure of that
write to the caller: Dev Start Date is filled from Planned Dev Start Date,
and Dev Due Date from Planned Dev Due Date. -/
theorem autoFill_fills_from_planned (raw : String → Option String)
    (write : List (String × String) → Except String Unit) :
    (∀ v, truthyOpt (raw devStartDate.id) = false →
      raw plannedStart.id = some v → v ≠ "" →
      devStartDate.name ∈ (autoFillCompute raw).2.1 ∧
      (devStartDate.name, v) ∈ (autoFillCompute raw).1 ∧
      (autoFillDevDates raw write).writes = [(autoFillCompute raw).1] ∧
      (∀ e, write (autoFillCompute raw).1 = .error e →
        (autoFillDevDates raw write).result = .error e) ∧
      (write (autoFillCompute raw).1 = .ok () →
        (autoFillDevDates raw write).result =
          .ok ((autoFillCompute raw).2.1, (autoFillCompute raw).2.2))) ∧
    (∀ v, truthyOpt (raw devDueDate.id) = false →
      raw plannedDue.id = some v → v ≠ "" →
      devDueDate.name ∈ (autoFillCompute raw).2.1 ∧
      (devDueDate.name, v) ∈ (autoFillCompute raw).1 ∧
      (autoFillDevDates raw write).writes = [(autoFillCompute raw).1] ∧
      (∀ e, write (autoFillCompute raw).1 = .error e →
        (autoFillDevDates raw write).result = .error e) ∧
      (write (autoFillCompute raw).1 = .ok () →
        (autoFillDevDates raw write).result =
          .ok ((autoFillCompute raw).2.1, (autoFillCompute raw).2.2))) := by
  constructor
  · intro v h1 h2 h3
    have htr : truthyOpt (raw plannedStart.id) = true := by
      rw [h2]
      simp [truthyOpt, h3]
    have hs : fillFromPlanned devStartDate (raw devStartDate.id) (raw plannedStart.id) =
        ([(devStartDate.name, v)], [devStartDate.name], []) := by
      unfold fillFromPlanned
      rw [if_neg (by simp [h1]), if_pos htr, h2]
      rfl
    have hc : autoFillCompute raw =
        ((devStartDate.name, v) ::
            (fillFromPlanned devDueDate (raw devDueDate.id) (raw plannedDue.id)).1,
          devStartDate.name ::
            (fillFromPlanned devDueDate (raw devDueDate.id) (raw plannedDue.id)).2.1,
          (fillFromPlanned devDueDate (raw devDueDate.id) (raw plannedDue.id)).2.2) := by
      unfold autoFillCompute
      rw [hs]
      simp
    have hne : (autoFillCompute raw).1.isEmpty = false := by
      rw [hc]
      rfl
    obtain ⟨hw, herr, hok⟩ := autoFillDevDates_result raw write hne
    exact ⟨by rw [hc]; simp, by rw [hc]; simp, hw, herr, hok⟩
  · intro v h1 h2 h3
    have htr : truthyOpt (raw plannedDue.id) = true := by
      rw [h2]
      simp [truthyOpt, h3]
    have hd : fillFromPlanned devDueDate (raw devDueDate.id) (raw plannedDue.id) =
        ([(devDueDate.name, v)], [devDueDate.name], []) := by
      unfold fillFromPlanned
      rw [if_neg (by simp [h1]), if_pos htr, h2]
      rfl
    have hc : autoFillCompute raw =
        ((fillFromPlanned devStartDate (raw devStartDate.id) (raw plannedStart.id)).1 ++
            [(devDueDate.name, v)],
          (fillFromPlanned devStartDate (raw devStartDate.id) (raw plannedStart.id)).2.1 ++
            [devDueDate.name],
          (fillFromPlanned devStartDate (raw devStartDate.id) (raw plannedStart.id)).2.2) := by
      unfold autoFillCompute
      rw [hd]
      simp
    have hne : (autoFillCompute raw).1.isEmpty = false := by
      rw [hc]
      simp
    obtain ⟨hw, herr, hok⟩ := autoFillDevDates_result raw write hne
    exact ⟨by rw [hc]; simp, by rw [hc]; simp, hw, herr, hok⟩

/-! ## CLI output classification claim theorem -/

/-- C10.  On a successful CLI exit, a single transition attempt is
reported as failed exactly when the stdout matches the words error, failed
or invalid case-insensitively and lacks the check mark; any other
successful-exit output yields a successful transition with no further
confirmation. -/
theorem tryMove_stdout_classification (cli : Cli) (label out : String)
    (h : cli label = .exitOk out) :
    ((∃ e, tryMove cli label = .error e) ↔
      (hasErrorWord out = true ∧ hasCheckMark out = false)) ∧
    ((hasErrorWord out && !hasCheckMark out) = false → tryMove cli label = .ok ()) := by
  cases hb : hasErrorWord out with
  | false =>
    simp [tryMove, runJira, h, hb]
  | true =>
    cases hm : hasCheckMark out with
    | false =>
      simp [tryMove, runJira, h, hb, hm]
    | true =>
      simp [tryMove, runJira, h, hb, hm]

/-! ## Witnesses: the claim theorems instantiated at concrete oracles -/

/-- Witness for C1: from Staging, the chain completes Regression, fails
unresolvably at Delivering and halts with the recorded progress. -/
theorem runToCompletion_halts_on_failure_witness :
    runTransitionLoop cliHardFail "Staging" =
      ⟨.error "Delivering" ["🔄 Regression"] "jira CLI (exit 1): permission denied"
          "Regression",
       [("Regression", ["Regression"]), ("Delivering", ["Delivering"])]⟩ := by
  have h := runToCompletion_halts_on_failure cliHardFail "Staging"
    [⟨"Regression", "🔄", "#FB8500", "Regression testing"⟩]
    [⟨"Done", "🎉", "#2DC653", "Completed"⟩]
    ⟨"Delivering", "📦", "#6A4C93", "Delivering to production"⟩
    "jira CLI (exit 1): permission denied"
    (by decide) (by decide) (by decide) (by decide)
  rw [h]
  decide

/-- Witness for C2: from Staging, a missing-field rejection at Delivering
suspends at Regression, whose remaining stages start at Delivering. -/
theorem runToCompletion_missing_field_resume_witness :
    runTransitionLoop cliFieldGate "Staging" =
      ⟨.suspended "Regression" ["Dev Start Date"] "Regression",
       [("Regression", ["Regression"]), ("Delivering", ["Delivering"])]⟩ ∧
    getRemainingSteps "Regression" =
      [⟨"Delivering", "📦", "#6A4C93", "Delivering to production"⟩,
       ⟨"Done", "🎉", "#2DC653", "Completed"⟩] := by
  have h := runToCompletion_missing_field_resume cliFieldGate "Staging"
    [⟨"Regression", "🔄", "#FB8500", "Regression testing"⟩]
    [⟨"Done", "🎉", "#2DC653", "Completed"⟩]
    ⟨"Delivering", "📦", "#6A4C93", "Delivering to production"⟩
    "jira CLI (exit 1): please fill in Dev Start Date"
    (by decide) (by decide) (by decide) (by decide)
  constructor
  · rw [h.1]
    decide
  · exact h.2.1

/-- Witness for the amended C3: from Regression, the attempts of the first
two chain stages are Delivering (resolved after a retry) then Done. -/
theorem chain_uses_full_engine_witness :
    ((runTransitionLoop cliResolverRetry "Regression").attempts.map Prod.fst).take 2 =
      ["Delivering", "Done"] := by
  have h := (chain_uses_full_engine cliResolverRetry "Regression").2
    [] [] ⟨"Delivering", "📦", "#6A4C93", "Delivering to production"⟩
    ⟨"Done", "🎉", "#2DC653", "Completed"⟩ (by decide) (by decide) (by decide)
  simpa using h

/-- Witness for C4: with the canonical Waiting label rejected, the alias
label is tried and succeeds; and when the alias also fails, the original
rejection is surfaced. -/
theorem transitionIssue_retry_policy_witness :
    transitionIssue cliAliasOk "Waiting" = (.ok (), ["Waiting", "TO DO"]) ∧
    transitionIssue cliAliasFail "Waiting" =
      (.error "jira CLI (exit 1): nope", ["Waiting", "TO DO"]) := by
  constructor
  · have h := ((transitionIssue_retry_policy cliAliasOk "Waiting").2
      "jira CLI (exit 1): nope" (by decide)).2 (by decide)
    have h2 := h.2 [] "TO DO" [] (by decide)
      (fun g hg => absurd hg (List.not_mem_nil g)) (by decide)
    exact h2
  · have h := ((transitionIssue_retry_policy cliAliasFail "Waiting").2
      "jira CLI (exit 1): nope" (by decide)).2 (by decide)
    have h2 := h.1 (by
      intro f hf
      have hfbs : (STATUS_FALLBACKS.lookup (jsToUpper "Waiting")).getD [] = ["TO DO"] := by
        decide
      rw [hfbs] at hf
      simp only [List.mem_singleton] at hf
      subst hf
      exact ⟨"jira CLI (exit 1): still no", by decide⟩)
    exact h2

/-- Witness for C5: the resolver instantiated on the spec's examples. -/
theorem findMatchingTransition_spec_witness :
    findMatchingTransition "Doing" ["Return to Doing", "Cancel"] = some "Return to Doing" ∧
    findMatchingTransition "Doing" ["Done"] = none :=
  ⟨(findMatchingTransition_spec "Doing" ["Return to Doing", "Cancel"]).2.2.1,
   (findMatchingTransition_spec "Doing" ["Done"]).2.2.2⟩

/-- Witness for C6: with both dev dates already set, nothing is filled,
nothing is missing and no write is issued. -/
theorem autoFill_never_overwrites_witness :
    autoFillDevDates rawBothSet writeOk = ⟨.ok ([], []), []⟩ :=
  (autoFill_never_overwrites rawBothSet writeOk).2.2 (by decide) (by decide)

/-- Witness for C7: with one target of each managed pair absent and its
planned counterpart set, exactly one write with the copied value is issued,
a write failure propagates, and a successful write reports the field as
filled — for Dev Start Date and for Dev Due Date alike. -/
theorem autoFill_fills_from_planned_witness :
    ("Dev Start Date" ∈ (autoFillCompute rawStartMissing).2.1 ∧
     ("Dev Start Date", "2024-02-02") ∈ (autoFillCompute rawStartMissing).1 ∧
     (autoFillDevDates rawStartMissing writeOk).writes =
       [[("Dev Start Date", "2024-02-02")]] ∧
     (autoFillDevDates rawStartMissing writeFail).result =
       .error "Failed to update fields (HTTP 500): boom" ∧
     (autoFillDevDates rawStartMissing writeOk).result = .ok (["Dev Start Date"], [])) ∧
    ("Dev Due Date" ∈ (autoFillCompute rawDueMissing).2.1 ∧
     ("Dev Due Date", "2024-04-04") ∈ (autoFillCompute rawDueMissing).1 ∧
     (autoFillDevDates rawDueMissing writeOk).writes =
       [[("Dev Due Date", "2024-04-04")]] ∧
     (autoFillDevDates rawDueMissing writeFail).result =
       .error "Failed to update fields (HTTP 500): boom" ∧
     (autoFillDevDates rawDueMissing writeOk).result = .ok (["Dev Due Date"], [])) := by
  have h1 := (autoFill_fills_from_planned rawStartMissing writeOk).1 "2024-02-02"
    (by decide) (by decide) (by decide)
  have h1f := (autoFill_fills_from_planned rawStartMissing writeFail).1 "2024-02-02"
    (by decide) (by decide) (by decide)
  have h2 := (autoFill_fills_from_planned rawDueMissing writeOk).2 "2024-04-04"
    (by decide) (by decide) (by decide)
  have h2f := (autoFill_fills_from_planned rawDueMissing writeFail).2 "2024-04-04"
    (by decide) (by decide) (by decide)
  refine ⟨⟨h1.1, h1.2.1, ?_, ?_, ?_⟩, ⟨h2.1, h2.2.1, ?_, ?_, ?_⟩⟩
  · rw [h1.2.2.1]
    decide
  · exact h1f.2.2.2.1 "Failed to update fields (HTTP 500): boom" (by decide)
  · have := h1.2.2.2.2 (by decide)
    rw [this]
    decide
  · rw [h2.2.2.1]
    decide
  · exact h2f.2.2.2.1 "Failed to update fields (HTTP 500): boom" (by decide)
  · have := h2.2.2.2.2 (by decide)
    rw [this]
    decide

/-- Witness for C8: Doing sits at index 1 of the 11 stages, leaving 9. -/
theorem remaining_length_spec_witness :
    ((getRemainingSteps "Doing").length : Int) = (WORKFLOW.length : Int) - 1 - 1 :=
  (remaining_length_spec.1 "Doing" 1 (by decide)).1 (by decide)

/-- Witness for C10: an error-marked stdout on a successful exit is a
failure; a clean stdout is a success. -/
theorem tryMove_stdout_classification_witness :
    (∃ e, tryMove cliNoisyError "Doing" = .error e) ∧
    tryMove cliCleanOk "Doing" = .ok () :=
  ⟨(tryMove_stdout_classification cliNoisyError "Doing"
      "Error: transition not allowed" rfl).1.mpr ⟨by decide, by decide⟩,
   (tryMove_stdout_classification cliCleanOk "Doing" "Moved to Done" rfl).2 (by decide)⟩

end JiraSpec
